import Mathlib

set_option maxRecDepth 8192

/- Verification of the Spatial Paginated Harvester of src/WFS.py.

   The embedding models the collection logic of WFS.py:
   - `fetch_wfs` (WFS.py:227-260): error classification of one HTTP page fetch;
     every error path (HTTP 400/500 and other HTTP errors, JSON decode errors,
     and any other exception such as a network timeout) returns `none`.
   - `fetch_all_features` (WFS.py:263-306): the per-region pagination walk with
     its internal dedup loop.  The network is modelled as a `Server` mapping a
     start index to a `FetchOutcome`; the walk is made total with a fuel
     parameter, and it additionally records the list of start indexes it
     requested, which is an observable of the loop (each iteration issues
     exactly one request).
   - `split_bbox` (WFS.py:37-73): BBOX grid subdivision, with coordinates
     modelled as rationals in place of Python floats.
   - `build_filter` / `build_condition_*` (WFS.py:129-219): filter XML
     construction, with rationals rendered by `toString` in place of Python
     float formatting.
   - `download_layer_collect` (WFS.py:325-396): the collection phase of
     `download_layer` (BBOX extraction, optional subdivision, the cross
     sub-region merge loop), omitting only printing and file output. -/

structure Feature where
  id : Option String
  payload : Nat
deriving DecidableEq

structure RespJson where
  features : Option (List Feature)
deriving DecidableEq

inductive FetchOutcome where
  | success (body : RespJson)
  | httpError (status : Nat)
  | jsonError
  | otherError
deriving DecidableEq

def PAGE_SIZE : Nat := 1000

/-- WFS.py:227-260.  `fetch_wfs` returns the parsed JSON on success and `None`
on every error path: HTTP errors with status 400/500 return `None`, other HTTP
errors print and return `None`, `json.JSONDecodeError` returns `None`, and any
other exception (timeouts, connection failures) prints and returns `None`. -/
def fetch_wfs : FetchOutcome → Option RespJson
  | .success body => some body
  | .httpError _s => none
  | .jsonError => none
  | .otherError => none

/-- A model of the remote feed for one fixed query filter: what the request at
each start index produces. -/
abbrev Server := Nat → FetchOutcome

/-- WFS.py:292-298.  The per-page dedup loop of `fetch_all_features`: a feature
whose `id` is absent is keyed by the synthetic identifier
`"_idx_" ++ toString (number of features accepted so far)`; a feature whose key
is already in `seen_ids` is skipped, otherwise the key is recorded and the
feature appended. -/
def acceptPage : List Feature → List Feature → List String → List Feature × List String
  | [], acc, seen => (acc, seen)
  | f :: fs, acc, seen =>
    let fid := match f.id with
      | some s => s
      | none => "_idx_" ++ toString acc.length
    if fid ∈ seen then acceptPage fs acc seen
    else acceptPage fs (acc ++ [f]) (fid :: seen)

structure WalkResult where
  features : List Feature
  requested : List Nat
deriving DecidableEq

/-- WFS.py:273-306.  The `while True` pagination loop of `fetch_all_features`.
A `none` fetch result or a response without a `features` key breaks the loop
(keeping the accumulated features); an empty page breaks; a partial page is
accepted and breaks; a full page is accepted and the loop continues at
`start_index + PAGE_SIZE`.  The loop is totalised by fuel; `requested` records
the start index of every iteration's request. -/
def walkAux (srv : Server) : Nat → Nat → List Feature → List String → List Nat → WalkResult
  | 0, _start, acc, _seen, reqs => ⟨acc, reqs⟩
  | fuel + 1, start, acc, seen, reqs =>
    match fetch_wfs (srv start) with
    | none => ⟨acc, reqs ++ [start]⟩
    | some body =>
      match body.features with
      | none => ⟨acc, reqs ++ [start]⟩
      | some features =>
        if features.length = 0 then ⟨acc, reqs ++ [start]⟩
        else
          let st := acceptPage features acc seen
          if features.length < PAGE_SIZE then ⟨st.1, reqs ++ [start]⟩
          else walkAux srv fuel (start + PAGE_SIZE) st.1 st.2 (reqs ++ [start])

/-- WFS.py:263-306. -/
def fetch_all_features (srv : Server) (fuel : Nat) : WalkResult :=
  walkAux srv fuel 0 [] [] []

abbrev BBox := ℚ × ℚ × ℚ × ℚ

/-- WFS.py:67-73.  The row-major grid construction of `split_bbox`. -/
def gridBoxes (xs ys : List ℚ) : List BBox :=
  (List.range (ys.length - 1)).flatMap (fun j =>
    (List.range (xs.length - 1)).map (fun i =>
      (xs.getD i 0, ys.getD j 0, xs.getD (i + 1) 0, ys.getD (j + 1) 0)))

/-- WFS.py:37-73.  The source's locals minx, miny, maxx, maxy are written as
the four tuple components of the input. -/
def split_bbox (bbox : BBox) (splits : Nat) : List BBox :=
  if splits ≤ 1 then [bbox]
  else if splits = 4 then
    gridBoxes [bbox.1, (bbox.1 + bbox.2.2.1) / 2, bbox.2.2.1]
      [bbox.2.1, (bbox.2.1 + bbox.2.2.2) / 2, bbox.2.2.2]
  else if 9 ≤ splits then
    gridBoxes
      [bbox.1, bbox.1 + (bbox.2.2.1 - bbox.1) / 3,
        bbox.1 + 2 * ((bbox.2.2.1 - bbox.1) / 3), bbox.2.2.1]
      [bbox.2.1, bbox.2.1 + (bbox.2.2.2 - bbox.2.1) / 3,
        bbox.2.1 + 2 * ((bbox.2.2.2 - bbox.2.1) / 3), bbox.2.2.2]
  else [bbox]

/-- The nine cells of the 3x3 grid written out explicitly, row-major. -/
def grid3 (minx miny maxx maxy : ℚ) : List BBox :=
  [(minx, miny, minx + (maxx - minx) / 3, miny + (maxy - miny) / 3),
   (minx + (maxx - minx) / 3, miny, minx + 2 * ((maxx - minx) / 3), miny + (maxy - miny) / 3),
   (minx + 2 * ((maxx - minx) / 3), miny, maxx, miny + (maxy - miny) / 3),
   (minx, miny + (maxy - miny) / 3, minx + (maxx - minx) / 3, miny + 2 * ((maxy - miny) / 3)),
   (minx + (maxx - minx) / 3, miny + (maxy - miny) / 3, minx + 2 * ((maxx - minx) / 3),
     miny + 2 * ((maxy - miny) / 3)),
   (minx + 2 * ((maxx - minx) / 3), miny + (maxy - miny) / 3, maxx, miny + 2 * ((maxy - miny) / 3)),
   (minx, miny + 2 * ((maxy - miny) / 3), minx + (maxx - minx) / 3, maxy),
   (minx + (maxx - minx) / 3, miny + 2 * ((maxy - miny) / 3), minx + 2 * ((maxx - minx) / 3), maxy),
   (minx + 2 * ((maxx - minx) / 3), miny + 2 * ((maxy - miny) / 3), maxx, maxy)]

/-- WFS.py:77 comment: a filter item is `(column, type, value)` with type one of
`EQ`, `LIKE`, `BBOX` (the three types handled by `build_filter`). -/
inductive FilterItem where
  | eq (column value : String)
  | like (column value : String)
  | bbox (geomColumn : String) (box : BBox)
deriving DecidableEq

/-- WFS.py:129-141. -/
def build_condition_like (column value : String) : String :=
  "<fes:PropertyIsLike wildCard=\"*\" singleChar=\"?\" escapeChar=\"!\"><fes:ValueReference>"
    ++ column ++ "</fes:ValueReference><fes:Literal>" ++ value
    ++ "</fes:Literal></fes:PropertyIsLike>"

/-- WFS.py:144-151. -/
def build_condition_eq (column value : String) : String :=
  "<fes:PropertyIsEqualTo><fes:ValueReference>" ++ column
    ++ "</fes:ValueReference><fes:Literal>" ++ value
    ++ "</fes:Literal></fes:PropertyIsEqualTo>"

/-- WFS.py:154-176.  Rationals are rendered with `toString` in place of Python
float formatting. -/
def build_condition_bbox (box : BBox) (geomColumn : String) : String :=
  "<fes:BBOX><fes:ValueReference>" ++ geomColumn
    ++ "</fes:ValueReference><gml:Envelope srsName=\"urn:ogc:def:crs:EPSG::4326\"><gml:lowerCorner>"
    ++ toString box.1 ++ " " ++ toString box.2.1 ++ "</gml:lowerCorner><gml:upperCorner>"
    ++ toString box.2.2.1 ++ " " ++ toString box.2.2.2
    ++ "</gml:upperCorner></gml:Envelope></fes:BBOX>"

/-- WFS.py:209-212. -/
def fesNS : String :=
  "xmlns:fes=\"http://www.opengis.net/fes/2.0\" xmlns:gml=\"http://www.opengis.net/gml/3.2\""

/-- WFS.py:192-203: the condition built for one filter item. -/
def condString : FilterItem → String
  | .eq c v => build_condition_eq c v
  | .like c v => build_condition_like c v
  | .bbox g b => build_condition_bbox b g

/-- WFS.py:179-219.  Empty filter list gives `None`; a single condition is left
bare inside `fes:Filter`; multiple conditions are wrapped in one `fes:And`. -/
def build_filter (fltrs : List FilterItem) : Option String :=
  match fltrs.map condString with
  | [] => none
  | [c] => some ("<fes:Filter " ++ fesNS ++ ">" ++ c ++ "</fes:Filter>")
  | cs => some ("<fes:Filter " ++ fesNS ++ "><fes:And>" ++ String.join cs ++ "</fes:And></fes:Filter>")

def isBBoxItem : FilterItem → Bool
  | .bbox _g _b => true
  | _ => false

/-- WFS.py:343-348.  The extraction loop: the last BBOX item wins (each BBOX
item overwrites `bbox_geom_col`/`bbox_filter`); `none` when no BBOX item. -/
def lastBBox (fltrs : List FilterItem) : Option (String × BBox) :=
  fltrs.foldl (fun st it => match it with
    | .bbox g b => some (g, b)
    | _ => st) none

/-- WFS.py:381-386.  The cross sub-region merge loop of `download_layer`:
`if fid and fid not in seen_ids` — a feature whose `id` is absent or empty
(falsy) is skipped; otherwise it is appended if its id is unseen. -/
def mergeDedup : List Feature → List Feature → List String → List Feature × List String
  | [], acc, seen => (acc, seen)
  | f :: fs, acc, seen =>
    match f.id with
    | none => mergeDedup fs acc seen
    | some s =>
      if s = "" then mergeDedup fs acc seen
      else if s ∈ seen then mergeDedup fs acc seen
      else mergeDedup fs (acc ++ [f]) (s :: seen)

/-- A model of the remote feed keyed by the filter XML actually sent. -/
abbrev FSrv := Option String → Server

/-- WFS.py:374-386: one iteration of the sub-region loop — rebuild the filter
with the sub-BBOX appended after the non-BBOX items, run a fresh walk, merge
with dedup; the third component records the filter of each walk issued. -/
def subStep (fltrs : List FilterItem) (g : String) (srvF : FSrv) (fuel : Nat)
    (st : List Feature × List String × List (Option String)) (sub : BBox) :
    List Feature × List String × List (Option String) :=
  let fx := build_filter ((fltrs.filter (fun it => ¬ isBBoxItem it)) ++ [FilterItem.bbox g sub])
  let fs := (fetch_all_features (srvF fx) fuel).features
  let md := mergeDedup fs st.1 st.2.1
  (md.1, md.2, st.2.2 ++ [fx])

structure DownloadResult where
  features : List Feature
  walks : List (Option String)
deriving DecidableEq

/-- WFS.py:325-396, collection phase of `download_layer`.  Subdivision happens
iff a BBOX filter is present and `bbox_split > 1`; otherwise a single walk on
the filter built from the whole filter list.  `walks` records the filter XML of
each `fetch_all_features` call, in order. -/
def download_layer_collect (fltrs : List FilterItem) (bbox_split : Nat)
    (srvF : FSrv) (fuel : Nat) : DownloadResult :=
  match lastBBox fltrs with
  | some (g, box) =>
    if 1 < bbox_split then
      let boxes := split_bbox box bbox_split
      let st := boxes.foldl (subStep fltrs g srvF fuel) ([], [], [])
      ⟨st.1, st.2.2⟩
    else ⟨(fetch_all_features (srvF (build_filter fltrs)) fuel).features, [build_filter fltrs]⟩
  | none => ⟨(fetch_all_features (srvF (build_filter fltrs)) fuel).features, [build_filter fltrs]⟩

/-- Modelled from the claim's wording (C10): the filter for a sub-region is
exactly the original non-BBOX conditions plus that sub-region's BBOX condition,
wrapped in a single `fes:And` when more than one condition is present and left
bare when only one is present. -/
def wrapConds : List String → String
  | [c] => "<fes:Filter " ++ fesNS ++ ">" ++ c ++ "</fes:Filter>"
  | cs => "<fes:Filter " ++ fesNS ++ "><fes:And>" ++ String.join cs ++ "</fes:And></fes:Filter>"

/-- Modelled from the claim's wording (C10): see `wrapConds`. -/
def specSubRegionFilter (fltrs : List FilterItem) (g : String) (sub : BBox) : String :=
  wrapConds ((fltrs.filter (fun it => ¬ isBBoxItem it)).map condString
    ++ [build_condition_bbox sub g])

/-- No two records with equal non-absent identifiers. -/
def NoDupIds (l : List Feature) : Prop :=
  l.Pairwise (fun a b => ∀ s, a.id = some s → b.id ≠ some s)

/-- Every non-absent identifier in `l` is recorded in `seen`. -/
def IdsSeen (l : List Feature) (seen : List String) : Prop :=
  ∀ f ∈ l, ∀ s, f.id = some s → s ∈ seen

def inRect (c : BBox) (x y : ℚ) : Prop :=
  c.1 ≤ x ∧ x ≤ c.2.2.1 ∧ c.2.1 ≤ y ∧ y ≤ c.2.2.2

def strictIn (c : BBox) (x y : ℚ) : Prop :=
  c.1 < x ∧ x < c.2.2.1 ∧ c.2.1 < y ∧ y < c.2.2.2

def boxW (c : BBox) : ℚ := c.2.2.1 - c.1

def boxH (c : BBox) : ℚ := c.2.2.2 - c.2.1

def InteriorsDisjoint (c d : BBox) : Prop :=
  ∀ x y, ¬ (strictIn c x y ∧ strictIn d x y)

/- Concrete feeds used by counterexamples and witnesses. -/

/-- A full page of PAGE_SIZE features all carrying id "a". -/
def pageA : List Feature := List.replicate PAGE_SIZE ⟨some "a", 0⟩

/-- A full page of PAGE_SIZE features all carrying id "b". -/
def pageB : List Feature := List.replicate PAGE_SIZE ⟨some "b", 0⟩

/-- Feed: full pages at offsets 0 and 1000, server rejection beyond. -/
def srvC1 : Server := fun i =>
  if i = 0 then .success ⟨some pageA⟩
  else if i = 1000 then .success ⟨some pageB⟩
  else .httpError 400

/-- Feed holding exactly PAGE_SIZE features: a full page at offset 0, rejection
at every further offset (the structural pagination ceiling). -/
def srvCeil : Server := fun i =>
  if i = 0 then .success ⟨some pageA⟩ else .httpError 400

/-- A layer filter list holding a single BBOX item, like the 하천망 layer. -/
def fltrs2 : List FilterItem := [.bbox "ag_geom" (0, 0, 1, 1)]

/-- A feed that always fails with a transient (non-HTTP) error, the model of a
network timeout or connection failure. -/
def srvT : Server := fun _i => .otherError

/-- A layer filter list with a BBOX item, used with bbox_split = 4. -/
def fltrs4 : List FilterItem := [.bbox "g" (0, 0, 2, 2)]

/-- Every sub-query returns one id-less feature as a partial page. -/
def srvF4 : FSrv := fun _fx i =>
  if i = 0 then .success ⟨some [⟨none, 7⟩]⟩ else .httpError 400

/-- A feed returning a single partial page with one identified feature. -/
def srvP : Server := fun _i => .success ⟨some [⟨some "p", 1⟩]⟩

/-- A filter list with one EQ item and one BBOX item, like the 교통노드 layer. -/
def fltrsW : List FilterItem := [.eq "node_type" "106", .bbox "ag_geom" (0, 0, 1, 1)]

/-- An arbitrary feed that rejects everything. -/
def srvFRej : FSrv := fun _fx _i => .httpError 400

/- Helper lemmas. -/

/-- The walk only ever appends to the list of requested offsets. -/
theorem walkAux_reqs_mono (srv : Server) :
    ∀ (fuel start : Nat) (acc : List Feature) (seen : List String) (reqs : List Nat) (x : Nat),
      x ∈ reqs → x ∈ (walkAux srv fuel start acc seen reqs).requested := by
  intro fuel
  induction fuel with
  | zero => intro start acc seen reqs x hx; simpa [walkAux] using hx
  | succ n ih =>
    intro start acc seen reqs x hx
    simp only [walkAux]
    split
    · exact List.mem_append_left _ hx
    · split
      · exact List.mem_append_left _ hx
      · split
        · exact List.mem_append_left _ hx
        · split
          · exact List.mem_append_left _ hx
          · exact ih _ _ _ _ x (List.mem_append_left _ hx)

/-- With at least one fuel step, the walk always requests its starting offset. -/
theorem walkAux_requests_self (srv : Server) (fuel start : Nat) (acc : List Feature)
    (seen : List String) (reqs : List Nat) :
    start ∈ (walkAux srv (fuel + 1) start acc seen reqs).requested := by
  simp only [walkAux]
  split
  · simp
  · split
    · simp
    · split
      · simp
      · split
        · simp
        · exact walkAux_reqs_mono srv fuel _ _ _ _ start (by simp)

/-- The page dedup loop appends a subsequence of the page after the existing
accumulator. -/
theorem acceptPage_sub : ∀ (page acc : List Feature) (seen : List String),
    ∃ added, (acceptPage page acc seen).1 = acc ++ added ∧ List.Sublist added page := by
  intro page
  induction page with
  | nil => intro acc seen; exact ⟨[], by simp [acceptPage], List.Sublist.refl []⟩
  | cons f fs ih =>
    intro acc seen
    simp only [acceptPage]
    by_cases h : (match f.id with
        | some s => s
        | none => "_idx_" ++ toString acc.length) ∈ seen
    · simp only [if_pos h]
      obtain ⟨added, h1, h2⟩ := ih acc seen
      exact ⟨added, h1, h2.cons f⟩
    · simp only [if_neg h]
      obtain ⟨added, h1, h2⟩ := ih (acc ++ [f]) _
      exact ⟨f :: added, by simpa [List.append_assoc] using h1, h2.cons₂ f⟩

/-- The page dedup loop preserves the no-duplicate-identifier invariant
together with the recording of all accepted identifiers in `seen_ids`. -/
theorem acceptPage_inv : ∀ (page acc : List Feature) (seen : List String),
    NoDupIds acc → IdsSeen acc seen →
    NoDupIds (acceptPage page acc seen).1
      ∧ IdsSeen (acceptPage page acc seen).1 (acceptPage page acc seen).2 := by
  intro page
  induction page with
  | nil => intro acc seen h1 h2; exact ⟨h1, h2⟩
  | cons f fs ih =>
    intro acc seen h1 h2
    cases hfid : f.id with
    | none =>
      simp only [acceptPage, hfid]
      by_cases h : ("_idx_" ++ toString acc.length) ∈ seen
      · simp only [if_pos h]; exact ih acc seen h1 h2
      · simp only [if_neg h]
        apply ih
        · rw [NoDupIds, List.pairwise_append]
          refine ⟨h1, by simp, ?_⟩
          intro a ha b hb s hsa hbs
          simp only [List.mem_singleton] at hb
          subst hb
          rw [hfid] at hbs
          cases hbs
        · intro g hg s hs
          rcases List.mem_append.1 hg with hga | hgf
          · exact List.mem_cons_of_mem _ (h2 g hga s hs)
          · simp only [List.mem_singleton] at hgf
            subst hgf
            rw [hfid] at hs
            cases hs
    | some s0 =>
      simp only [acceptPage, hfid]
      by_cases h : s0 ∈ seen
      · simp only [if_pos h]; exact ih acc seen h1 h2
      · simp only [if_neg h]
        apply ih
        · rw [NoDupIds, List.pairwise_append]
          refine ⟨h1, by simp, ?_⟩
          intro a ha b hb s hsa hbs
          simp only [List.mem_singleton] at hb
          subst hb
          rw [hfid] at hbs
          injection hbs with hse
          exact h (hse ▸ h2 a ha s hsa)
        · intro g hg s hs
          rcases List.mem_append.1 hg with hga | hgf
          · exact List.mem_cons_of_mem _ (h2 g hga s hs)
          · simp only [List.mem_singleton] at hgf
            subst hgf
            rw [hfid] at hs
            injection hs with hse
            exact hse ▸ List.mem_cons_self s0 seen

/-- The pagination walk preserves the no-duplicate-identifier invariant. -/
theorem walkAux_nodup (srv : Server) :
    ∀ (fuel start : Nat) (acc : List Feature) (seen : List String) (reqs : List Nat),
      NoDupIds acc → IdsSeen acc seen → NoDupIds (walkAux srv fuel start acc seen reqs).features := by
  intro fuel
  induction fuel with
  | zero => intro start acc seen reqs h1 _h2; exact h1
  | succ n ih =>
    intro start acc seen reqs h1 h2
    simp only [walkAux]
    split
    · exact h1
    · split
      · exact h1
      · split
        · exact h1
        · split
          · exact (acceptPage_inv _ acc seen h1 h2).1
          · exact ih _ _ _ _ (acceptPage_inv _ acc seen h1 h2).1
              (acceptPage_inv _ acc seen h1 h2).2

/-- The cross sub-region merge loop preserves the no-duplicate-identifier
invariant together with the recording of accepted identifiers. -/
theorem mergeDedup_inv : ∀ (fs acc : List Feature) (seen : List String),
    NoDupIds acc → IdsSeen acc seen →
    NoDupIds (mergeDedup fs acc seen).1
      ∧ IdsSeen (mergeDedup fs acc seen).1 (mergeDedup fs acc seen).2 := by
  intro fs
  induction fs with
  | nil => intro acc seen h1 h2; exact ⟨h1, h2⟩
  | cons f fs ih =>
    intro acc seen h1 h2
    cases hfid : f.id with
    | none => simp only [mergeDedup, hfid]; exact ih acc seen h1 h2
    | some s0 =>
      simp only [mergeDedup, hfid]
      by_cases he : s0 = ""
      · simp only [if_pos he]; exact ih acc seen h1 h2
      · simp only [if_neg he]
        by_cases h : s0 ∈ seen
        · simp only [if_pos h]; exact ih acc seen h1 h2
        · simp only [if_neg h]
          apply ih
          · rw [NoDupIds, List.pairwise_append]
            refine ⟨h1, by simp, ?_⟩
            intro a ha b hb s hsa hbs
            simp only [List.mem_singleton] at hb
            subst hb
            rw [hfid] at hbs
            injection hbs with hse
            exact h (hse ▸ h2 a ha s hsa)
          · intro g hg s hs
            rcases List.mem_append.1 hg with hga | hgf
            · exact List.mem_cons_of_mem _ (h2 g hga s hs)
            · simp only [List.mem_singleton] at hgf
              subst hgf
              rw [hfid] at hs
              injection hs with hse
              exact hse ▸ List.mem_cons_self s0 seen

/-- Every record the merge loop adds beyond the existing accumulator carries a
present, non-empty identifier. -/
theorem mergeDedup_mem : ∀ (fs acc : List Feature) (seen : List String),
    ∀ f ∈ (mergeDedup fs acc seen).1, f ∈ acc ∨ ∃ s, f.id = some s ∧ s ≠ "" := by
  intro fs
  induction fs with
  | nil => intro acc seen f hf; exact Or.inl hf
  | cons g gs ih =>
    intro acc seen f hf
    cases hgid : g.id with
    | none =>
      simp only [mergeDedup, hgid] at hf
      exact ih acc seen f hf
    | some s0 =>
      simp only [mergeDedup, hgid] at hf
      by_cases he : s0 = ""
      · rw [if_pos he] at hf; exact ih acc seen f hf
      · rw [if_neg he] at hf
        by_cases hs : s0 ∈ seen
        · rw [if_pos hs] at hf; exact ih acc seen f hf
        · rw [if_neg hs] at hf
          rcases ih _ _ f hf with hin | hex
          · rcases List.mem_append.1 hin with h | h
            · exact Or.inl h
            · simp only [List.mem_singleton] at h
              subst h
              exact Or.inr ⟨s0, hgid, he⟩
          · exact Or.inr hex

/-- The sub-region fold records exactly one walk, with the rebuilt filter, per
sub-region, in order. -/
theorem foldl_subStep_walks (fltrs : List FilterItem) (g : String) (srvF : FSrv) (fuel : Nat) :
    ∀ (boxes : List BBox) (acc : List Feature) (seen : List String) (ws : List (Option String)),
      (boxes.foldl (subStep fltrs g srvF fuel) (acc, seen, ws)).2.2
        = ws ++ boxes.map (fun sub =>
            build_filter ((fltrs.filter (fun it => ¬ isBBoxItem it)) ++ [FilterItem.bbox g sub])) := by
  intro boxes
  induction boxes with
  | nil => intro acc seen ws; simp
  | cons b bs ih =>
    intro acc seen ws
    simp only [List.foldl_cons, List.map_cons, subStep]
    rw [ih]
    simp

/-- The sub-region fold preserves the no-duplicate-identifier invariant. -/
theorem foldl_subStep_inv (fltrs : List FilterItem) (g : String) (srvF : FSrv) (fuel : Nat) :
    ∀ (boxes : List BBox) (acc : List Feature) (seen : List String) (ws : List (Option String)),
      NoDupIds acc → IdsSeen acc seen →
      NoDupIds (boxes.foldl (subStep fltrs g srvF fuel) (acc, seen, ws)).1 := by
  intro boxes
  induction boxes with
  | nil => intro acc seen ws h1 _h2; exact h1
  | cons b bs ih =>
    intro acc seen ws h1 h2
    simp only [List.foldl_cons, subStep]
    exact ih _ _ _ (mergeDedup_inv _ acc seen h1 h2).1 (mergeDedup_inv _ acc seen h1 h2).2

/-- The filter the subdivision path builds for a sub-region equals the
spec-worded description: non-BBOX conditions plus the sub-region BBOX
condition, And-wrapped iff more than one condition. -/
theorem build_filter_sub (fltrs : List FilterItem) (g : String) (sub : BBox) :
    build_filter ((fltrs.filter (fun it => ¬ isBBoxItem it)) ++ [FilterItem.bbox g sub])
      = some (specSubRegionFilter fltrs g sub) := by
  rw [build_filter, specSubRegionFilter, List.map_append]
  cases h : (fltrs.filter (fun it => ¬ isBBoxItem it)).map condString with
  | nil => simp [wrapConds, condString]
  | cons c cs =>
    cases cs with
    | nil => simp [wrapConds, condString, String.join]
    | cons c2 cs2 => simp [wrapConds, condString, String.join]

/-- The 9-way branch of `split_bbox` computes exactly the explicit 3x3 grid. -/
theorem split9_eq_grid3 (minx miny maxx maxy : ℚ) :
    split_bbox (minx, miny, maxx, maxy) 9 = grid3 minx miny maxx maxy := rfl

/-- A point of an interval lies in one of its three equal thirds. -/
theorem cover1D (a b x : ℚ) (h1 : a ≤ x) (h2 : x ≤ b) :
    (a ≤ x ∧ x ≤ a + (b - a) / 3)
      ∨ (a + (b - a) / 3 ≤ x ∧ x ≤ a + 2 * ((b - a) / 3))
      ∨ (a + 2 * ((b - a) / 3) ≤ x ∧ x ≤ b) := by
  rcases le_total x (a + (b - a) / 3) with h | h
  · exact Or.inl ⟨h1, h⟩
  · rcases le_total x (a + 2 * ((b - a) / 3)) with h' | h'
    · exact Or.inr (Or.inl ⟨h, h'⟩)
    · exact Or.inr (Or.inr ⟨h', h2⟩)

/-- The nine grid cells cover exactly the input box. -/
theorem grid3_cover (minx miny maxx maxy : ℚ) (hx : minx ≤ maxx) (hy : miny ≤ maxy) :
    ∀ x y, inRect (minx, miny, maxx, maxy) x y ↔
      ∃ c ∈ grid3 minx miny maxx maxy, inRect c x y := by
  intro x y
  have hx3 : 3 * ((maxx - minx) / 3) = maxx - minx := by ring
  have hy3 : 3 * ((maxy - miny) / 3) = maxy - miny := by ring
  have hdx : 0 ≤ (maxx - minx) / 3 := by linarith
  have hdy : 0 ≤ (maxy - miny) / 3 := by linarith
  constructor
  · intro h
    simp only [inRect] at h
    obtain ⟨h1, h2, h3, h4⟩ := h
    rcases cover1D minx maxx x h1 h2 with hx1 | hx1 | hx1 <;>
      rcases cover1D miny maxy y h3 h4 with hy1 | hy1 | hy1
    · exact ⟨(minx, miny, minx + (maxx - minx) / 3, miny + (maxy - miny) / 3),
        by simp [grid3], hx1.1, hx1.2, hy1.1, hy1.2⟩
    · exact ⟨(minx, miny + (maxy - miny) / 3, minx + (maxx - minx) / 3,
        miny + 2 * ((maxy - miny) / 3)), by simp [grid3], hx1.1, hx1.2, hy1.1, hy1.2⟩
    · exact ⟨(minx, miny + 2 * ((maxy - miny) / 3), minx + (maxx - minx) / 3, maxy),
        by simp [grid3], hx1.1, hx1.2, hy1.1, hy1.2⟩
    · exact ⟨(minx + (maxx - minx) / 3, miny, minx + 2 * ((maxx - minx) / 3),
        miny + (maxy - miny) / 3), by simp [grid3], hx1.1, hx1.2, hy1.1, hy1.2⟩
    · exact ⟨(minx + (maxx - minx) / 3, miny + (maxy - miny) / 3,
        minx + 2 * ((maxx - minx) / 3), miny + 2 * ((maxy - miny) / 3)),
        by simp [grid3], hx1.1, hx1.2, hy1.1, hy1.2⟩
    · exact ⟨(minx + (maxx - minx) / 3, miny + 2 * ((maxy - miny) / 3),
        minx + 2 * ((maxx - minx) / 3), maxy), by simp [grid3], hx1.1, hx1.2, hy1.1, hy1.2⟩
    · exact ⟨(minx + 2 * ((maxx - minx) / 3), miny, maxx, miny + (maxy - miny) / 3),
        by simp [grid3], hx1.1, hx1.2, hy1.1, hy1.2⟩
    · exact ⟨(minx + 2 * ((maxx - minx) / 3), miny + (maxy - miny) / 3, maxx,
        miny + 2 * ((maxy - miny) / 3)), by simp [grid3], hx1.1, hx1.2, hy1.1, hy1.2⟩
    · exact ⟨(minx + 2 * ((maxx - minx) / 3), miny + 2 * ((maxy - miny) / 3), maxx, maxy),
        by simp [grid3], hx1.1, hx1.2, hy1.1, hy1.2⟩
  · rintro ⟨c, hc, hin⟩
    simp only [grid3, List.mem_cons, List.not_mem_nil, or_false] at hc
    rcases hc with rfl | rfl | rfl | rfl | rfl | rfl | rfl | rfl | rfl <;>
      (simp only [inRect] at hin ⊢
       obtain ⟨h1, h2, h3, h4⟩ := hin
       exact ⟨by linarith, by linarith, by linarith, by linarith⟩)

/-- The interiors of distinct grid cells are pairwise disjoint. -/
theorem grid3_pairwise (minx miny maxx maxy : ℚ) (hx : minx < maxx) (hy : miny < maxy) :
    (grid3 minx miny maxx maxy).Pairwise InteriorsDisjoint := by
  have hx3 : 3 * ((maxx - minx) / 3) = maxx - minx := by ring
  have hy3 : 3 * ((maxy - miny) / 3) = maxy - miny := by ring
  have hdx : 0 < (maxx - minx) / 3 := by linarith
  have hdy : 0 < (maxy - miny) / 3 := by linarith
  rw [grid3]
  refine List.Pairwise.cons ?_ (List.Pairwise.cons ?_ (List.Pairwise.cons ?_
    (List.Pairwise.cons ?_ (List.Pairwise.cons ?_ (List.Pairwise.cons ?_
    (List.Pairwise.cons ?_ (List.Pairwise.cons ?_ (List.Pairwise.cons ?_
    List.Pairwise.nil)))))))) <;>
    · intro c hc
      fin_cases hc <;>
        · intro x y h
          simp only [strictIn] at h
          obtain ⟨⟨a1, a2, a3, a4⟩, b1, b2, b3, b4⟩ := h
          linarith

/-- Every grid cell has width and height one third of the input box. -/
theorem grid3_width (minx miny maxx maxy : ℚ) :
    ∀ c ∈ grid3 minx miny maxx maxy,
      boxW c = (maxx - minx) / 3 ∧ boxH c = (maxy - miny) / 3 := by
  intro c hc
  fin_cases hc <;>
    exact ⟨by simp only [boxW]; ring, by simp only [boxH]; ring⟩

/- Claim theorems. -/

/-- Claim C1, counterexample.  The claim says that when a fetched page contains
exactly pageSize records and the next offset would exceed the pagination
ceiling (with the feed's ceiling maxOffset = 1000, the page fetched at offset
1000 has count = PAGE_SIZE and 1000 + PAGE_SIZE > 1000), the walker stops
requesting further pages and reports hitCeiling = true.  On this feed the walk
nevertheless issues a request at offset 2000: `fetch_all_features` performs no
ceiling check, and it returns no ceiling flag at all (its result is only the
feature list and, in this model, the requested offsets). -/
theorem no_ceiling_check_counterexample :
    pageB.length = PAGE_SIZE ∧ 1000 + PAGE_SIZE > 1000
      ∧ srvC1 1000 = FetchOutcome.success ⟨some pageB⟩
      ∧ (fetch_all_features srvC1 10).requested = [0, 1000, 2000] :=
  ⟨by simp [pageB], by decide, rfl, by decide⟩

/-- Claim C1, amended: on a successful full page (count = PAGE_SIZE) the walk
always accepts the page's records and continues by requesting offset
start + PAGE_SIZE — no ceiling condition is consulted and no hitCeiling flag
exists; termination at the server's ceiling happens only through a failed
response at the next offset, handled as end-of-data. -/
theorem full_page_always_advances (srv : Server) (body : RespJson) (features : List Feature)
    (fuel start : Nat) (acc : List Feature) (seen : List String) (reqs : List Nat)
    (h1 : srv start = FetchOutcome.success body) (h2 : body.features = some features)
    (h3 : features.length = PAGE_SIZE) :
    walkAux srv (fuel + 1) start acc seen reqs
        = walkAux srv fuel (start + PAGE_SIZE) (acceptPage features acc seen).1
            (acceptPage features acc seen).2 (reqs ++ [start])
      ∧ (start + PAGE_SIZE) ∈ (walkAux srv (fuel + 2) start acc seen reqs).requested := by
  have hf : fetch_wfs (srv start) = some body := by rw [h1]; rfl
  have h0 : ¬ features.length = 0 := by rw [h3]; decide
  have hlt : ¬ features.length < PAGE_SIZE := by rw [h3]; exact Nat.lt_irrefl _
  have hstep : ∀ n : Nat, walkAux srv (n + 1) start acc seen reqs
      = walkAux srv n (start + PAGE_SIZE) (acceptPage features acc seen).1
          (acceptPage features acc seen).2 (reqs ++ [start]) := by
    intro n
    simp only [walkAux, hf, h2]
    rw [if_neg h0, if_neg hlt]
  refine ⟨hstep fuel, ?_⟩
  have h2step : walkAux srv (fuel + 2) start acc seen reqs
      = walkAux srv (fuel + 1) (start + PAGE_SIZE) (acceptPage features acc seen).1
          (acceptPage features acc seen).2 (reqs ++ [start]) := hstep (fuel + 1)
  rw [h2step]
  exact walkAux_requests_self srv fuel _ _ _ _

/-- Claim C1, witness for the amended theorem at a concrete full-page feed. -/
theorem full_page_always_advances_witness :
    srvC1 0 = FetchOutcome.success ⟨some pageA⟩
      ∧ (RespJson.mk (some pageA)).features = some pageA
      ∧ pageA.length = PAGE_SIZE
      ∧ (walkAux srvC1 2 0 [] [] []
            = walkAux srvC1 1 (0 + PAGE_SIZE) (acceptPage pageA [] []).1
                (acceptPage pageA [] []).2 [0]
          ∧ (0 + PAGE_SIZE) ∈ (walkAux srvC1 3 0 [] [] []).requested) :=
  ⟨rfl, rfl, by simp [pageA],
    full_page_always_advances srvC1 ⟨some pageA⟩ pageA 1 0 [] [] [] rfl rfl (by simp [pageA])⟩

/-- Claim C2, counterexample.  A feed holding exactly PAGE_SIZE features fills
the whole-region query to capacity (full page at offset 0, rejection at offset
1000 — the structural ceiling), yet for a layer whose configuration has no
`bbox_split` entry (default 1, as for the 하천망 layer) `download_layer`
performs exactly one walk and never invokes `split_bbox` or issues any
sub-region query. -/
theorem subdivision_not_ceiling_driven_counterexample :
    srvCeil 0 = FetchOutcome.success ⟨some pageA⟩ ∧ pageA.length = PAGE_SIZE
      ∧ srvCeil PAGE_SIZE = FetchOutcome.httpError 400
      ∧ (fetch_all_features srvCeil 10).requested = [0, 1000]
      ∧ (download_layer_collect fltrs2 1 (fun _fx => srvCeil) 10).walks = [build_filter fltrs2] :=
  ⟨rfl, by simp [pageA], rfl, by decide, by decide⟩

/-- Claim C2, amended: subdivision is decided statically by the layer
configuration, not by any runtime ceiling signal (none exists).  Without a BBOX
filter or with bbox_split ≤ 1 exactly one whole-region walk is issued,
regardless of the feed's behaviour; with a BBOX filter and bbox_split > 1 the
harvest always issues exactly one walk per `split_bbox` sub-region (with the
rebuilt filter), merging all results into the same accumulator. -/
theorem subdivision_config_driven (fltrs : List FilterItem) (bbox_split : Nat)
    (srvF : FSrv) (fuel : Nat) :
    ((lastBBox fltrs = none ∨ bbox_split ≤ 1) →
      (download_layer_collect fltrs bbox_split srvF fuel).walks = [build_filter fltrs])
    ∧ (∀ g box, lastBBox fltrs = some (g, box) → 1 < bbox_split →
      (download_layer_collect fltrs bbox_split srvF fuel).walks
        = (split_bbox box bbox_split).map (fun sub =>
            build_filter ((fltrs.filter (fun it => ¬ isBBoxItem it)) ++ [FilterItem.bbox g sub]))) := by
  constructor
  · intro h
    rcases h with hn | hs
    · simp only [download_layer_collect, hn]
    · cases hlb : lastBBox fltrs with
      | none => simp only [download_layer_collect, hlb]
      | some gb =>
        obtain ⟨g, box⟩ := gb
        have hns : ¬ 1 < bbox_split := by omega
        simp only [download_layer_collect, hlb, if_neg hns]
  · intro g box hlb hs
    simp only [download_layer_collect, hlb, if_pos hs]
    rw [foldl_subStep_walks]
    simp

/-- Claim C2, witness for the amended theorem. -/
theorem subdivision_config_driven_witness :
    (lastBBox fltrs2 = none ∨ 1 ≤ 1)
      ∧ (download_layer_collect fltrs2 1 srvFRej 3).walks = [build_filter fltrs2] :=
  ⟨Or.inr (by decide), (subdivision_config_driven fltrs2 1 srvFRej 3).1 (Or.inr (by decide))⟩

/-- Claim C3: in both the per-region walk and the cross sub-region merge, the
final record list never contains two records with equal non-absent
identifiers; moreover accepted records are only ever appended after the
existing accumulator, as a subsequence of the incoming page (first-accepted
instance kept, insertion order preserved). -/
theorem harvest_dedup_invariant :
    (∀ (srv : Server) (fuel : Nat), NoDupIds (fetch_all_features srv fuel).features)
    ∧ (∀ (fltrs : List FilterItem) (bbox_split fuel : Nat) (srvF : FSrv),
        NoDupIds (download_layer_collect fltrs bbox_split srvF fuel).features)
    ∧ (∀ (page acc : List Feature) (seen : List String),
        ∃ added, (acceptPage page acc seen).1 = acc ++ added ∧ List.Sublist added page) := by
  have hnil : NoDupIds ([] : List Feature) := List.Pairwise.nil
  have hseen : IdsSeen ([] : List Feature) [] := by
    intro f hf; exact absurd hf (List.not_mem_nil f)
  refine ⟨?_, ?_, acceptPage_sub⟩
  · intro srv fuel
    exact walkAux_nodup srv fuel 0 [] [] [] hnil hseen
  · intro fltrs bbox_split fuel srvF
    cases hlb : lastBBox fltrs with
    | none =>
      simp only [download_layer_collect, hlb]
      exact walkAux_nodup _ fuel 0 [] [] [] hnil hseen
    | some gb =>
      obtain ⟨g, box⟩ := gb
      by_cases hs : 1 < bbox_split
      · simp only [download_layer_collect, hlb, if_pos hs]
        exact foldl_subStep_inv fltrs g srvF fuel _ [] [] [] hnil hseen
      · simp only [download_layer_collect, hlb, if_neg hs]
        exact walkAux_nodup _ fuel 0 [] [] [] hnil hseen

/-- Claim C4, counterexample.  An absent-identifier record is accepted by the
per-region walk, but the subdivision merge path (`if fid and fid not in
seen_ids`) discards every absent-id record: the final harvest is empty. -/
theorem absent_id_dropped_counterexample :
    (fetch_all_features (srvF4 none) 10).features = [⟨none, 7⟩]
      ∧ (download_layer_collect fltrs4 4 srvF4 10).features = [] :=
  ⟨by decide, by decide⟩

/-- Claim C4, amended: in the subdivision merge path every record added beyond
the existing accumulator carries a present non-empty identifier (absent-id
records are always discarded there); in the per-region walk an absent-id
record is accepted exactly when its synthetic identifier
"_idx_{count-so-far}" has not been seen, and is silently dropped when that
synthetic identifier collides with an already-seen identifier. -/
theorem absent_id_policy :
    (∀ (fs acc : List Feature) (seen : List String),
      ∀ f ∈ (mergeDedup fs acc seen).1, f ∈ acc ∨ ∃ s, f.id = some s ∧ s ≠ "")
    ∧ (∀ (p : Nat) (rest acc : List Feature) (seen : List String),
        (("_idx_" ++ toString acc.length) ∉ seen →
          acceptPage (⟨none, p⟩ :: rest) acc seen
            = acceptPage rest (acc ++ [⟨none, p⟩]) (("_idx_" ++ toString acc.length) :: seen))
        ∧ (("_idx_" ++ toString acc.length) ∈ seen →
          acceptPage (⟨none, p⟩ :: rest) acc seen = acceptPage rest acc seen)) := by
  refine ⟨mergeDedup_mem, ?_⟩
  intro p rest acc seen
  constructor
  · intro h
    simp only [acceptPage, if_neg h]
  · intro h
    simp only [acceptPage, if_pos h]

/-- Claim C4, witness for the amended theorem. -/
theorem absent_id_policy_witness :
    ("_idx_" ++ toString (0 : Nat)) ∉ ([] : List String)
      ∧ acceptPage [⟨none, 1⟩] [] []
          = acceptPage [] [⟨none, 1⟩] ["_idx_" ++ toString (0 : Nat)] :=
  ⟨by decide, (absent_id_policy.2 1 [] [] []).1 (by decide)⟩

/-- Claim C5: a successful page with fewer than PAGE_SIZE records (including
zero) terminates the region's walk immediately after accepting that page's
records — the result is exactly the accumulator extended by the page's dedup
pass, no further offset is requested, and the walk ends by the ordinary
end-of-data exit (the code returns no ceiling flag; this normal termination is
what the spec's hitCeiling = false denotes). -/
theorem short_page_terminates_walk (srv : Server) (body : RespJson) (features : List Feature)
    (fuel start : Nat) (acc : List Feature) (seen : List String) (reqs : List Nat)
    (h1 : srv start = FetchOutcome.success body) (h2 : body.features = some features)
    (h3 : features.length < PAGE_SIZE) :
    walkAux srv (fuel + 1) start acc seen reqs
      = ⟨(acceptPage features acc seen).1, reqs ++ [start]⟩ := by
  have hf : fetch_wfs (srv start) = some body := by rw [h1]; rfl
  by_cases h0 : features.length = 0
  · have hnil : features = [] := List.length_eq_zero.1 h0
    subst hnil
    simp [walkAux, hf, h2, acceptPage]
  · simp only [walkAux, hf, h2]
    rw [if_neg h0, if_pos h3]

/-- Claim C5, witness at a concrete one-record page. -/
theorem short_page_terminates_walk_witness :
    srvP 0 = FetchOutcome.success ⟨some [⟨some "p", 1⟩]⟩
      ∧ (RespJson.mk (some [⟨some "p", 1⟩])).features = some [⟨some "p", 1⟩]
      ∧ ([⟨some "p", 1⟩] : List Feature).length < PAGE_SIZE
      ∧ walkAux srvP 1 0 [] [] [] = ⟨(acceptPage [⟨some "p", 1⟩] [] []).1, [0]⟩ :=
  ⟨rfl, rfl, by decide,
    short_page_terminates_walk srvP ⟨some [⟨some "p", 1⟩]⟩ [⟨some "p", 1⟩] 0 0 [] [] []
      rfl rfl (by decide)⟩

/-- Claim C6: a ServerRejected (HTTP 400/500) or Malformed (unparseable)
response makes `fetch_wfs` return None and the walk terminate as end-of-data:
it returns normally (no failure is surfaced — the function has no error
channel) with exactly the records already accepted from earlier pages. -/
theorem rejected_fetch_ends_walk (srv : Server) (fuel start : Nat) (acc : List Feature)
    (seen : List String) (reqs : List Nat)
    (h : srv start = FetchOutcome.httpError 400 ∨ srv start = FetchOutcome.httpError 500
      ∨ srv start = FetchOutcome.jsonError) :
    walkAux srv (fuel + 1) start acc seen reqs = ⟨acc, reqs ++ [start]⟩ := by
  have hf : fetch_wfs (srv start) = none := by
    rcases h with h | h | h <;> rw [h] <;> rfl
  simp only [walkAux, hf]

/-- Claim C6, witness: a rejection at offset 1000 with one record already
accepted from the earlier page keeps that record in the result. -/
theorem rejected_fetch_ends_walk_witness :
    (srvCeil 1000 = FetchOutcome.httpError 400 ∨ srvCeil 1000 = FetchOutcome.httpError 500
        ∨ srvCeil 1000 = FetchOutcome.jsonError)
      ∧ walkAux srvCeil 1 1000 [⟨some "a", 0⟩] ["a"] [0] = ⟨[⟨some "a", 0⟩], [0, 1000]⟩ :=
  ⟨Or.inl (by decide),
    rejected_fetch_ends_walk srvCeil 0 1000 [⟨some "a", 0⟩] ["a"] [0] (Or.inl (by decide))⟩

/-- Claim C7, counterexample.  The claim says a Transient fetch error causes
the same offset to be retried a bounded number of times and, only after the
bound is exhausted, a hard failure.  On a feed that always fails transiently,
the walk attempts offset 0 exactly once (`requested = [0]`, no retry) and
returns the ordinary empty result — termination is silent, no failure is ever
surfaced, because `fetch_wfs` swallows every exception into None and
`fetch_all_features` treats None as end-of-data. -/
theorem transient_error_no_retry_counterexample :
    srvT 0 = FetchOutcome.otherError ∧ fetch_all_features srvT 100 = ⟨[], [0]⟩ :=
  ⟨rfl, by decide⟩

/-- Claim C7, amended: a transient error is handled like every other fetch
error — the offset is attempted exactly once and the walk terminates
immediately as end-of-data, returning the records accepted so far with no
retry and no surfaced failure. -/
theorem transient_error_single_attempt (srv : Server) (fuel start : Nat) (acc : List Feature)
    (seen : List String) (reqs : List Nat) (h : srv start = FetchOutcome.otherError) :
    walkAux srv (fuel + 1) start acc seen reqs = ⟨acc, reqs ++ [start]⟩ := by
  have hf : fetch_wfs (srv start) = none := by rw [h]; rfl
  simp only [walkAux, hf]

/-- Claim C7, witness for the amended theorem. -/
theorem transient_error_single_attempt_witness :
    srvT 5000 = FetchOutcome.otherError
      ∧ walkAux srvT 3 5000 [⟨some "a", 0⟩] ["a"] [0] = ⟨[⟨some "a", 0⟩], [0, 5000]⟩ :=
  ⟨rfl, transient_error_single_attempt srvT 2 5000 [⟨some "a", 0⟩] ["a"] [0] rfl⟩

/-- Claim C8: for a region with min < max on both axes, split(region, 9)
equals the explicit row-major 3x3 grid whose rows and columns divide each axis
into three equal intervals; it returns exactly 9 cells, every cell has width
(maxx-minx)/3 and height (maxy-miny)/3, a point lies in the region iff it lies
in some cell (union equals the bounds, no gaps), the cells' interiors are
pairwise disjoint, and split(region, 1) returns the region unchanged. -/
theorem split9_partition (minx miny maxx maxy : ℚ) (hx : minx < maxx) (hy : miny < maxy) :
    split_bbox (minx, miny, maxx, maxy) 9 = grid3 minx miny maxx maxy
    ∧ (split_bbox (minx, miny, maxx, maxy) 9).length = 9
    ∧ (∀ c ∈ split_bbox (minx, miny, maxx, maxy) 9,
        boxW c = (maxx - minx) / 3 ∧ boxH c = (maxy - miny) / 3)
    ∧ (∀ x y, inRect (minx, miny, maxx, maxy) x y ↔
        ∃ c ∈ split_bbox (minx, miny, maxx, maxy) 9, inRect c x y)
    ∧ (split_bbox (minx, miny, maxx, maxy) 9).Pairwise InteriorsDisjoint
    ∧ split_bbox (minx, miny, maxx, maxy) 1 = [(minx, miny, maxx, maxy)] := by
  refine ⟨split9_eq_grid3 minx miny maxx maxy, rfl, ?_, ?_, ?_, rfl⟩
  · rw [split9_eq_grid3]
    exact grid3_width minx miny maxx maxy
  · rw [split9_eq_grid3]
    exact grid3_cover minx miny maxx maxy hx.le hy.le
  · rw [split9_eq_grid3]
    exact grid3_pairwise minx miny maxx maxy hx hy

/-- Claim C8, witness at the concrete region (0,0,3,3). -/
theorem split9_partition_witness :
    (0 : ℚ) < 3
      ∧ (split_bbox ((0 : ℚ), (0 : ℚ), (3 : ℚ), (3 : ℚ)) 9).Pairwise InteriorsDisjoint :=
  ⟨by norm_num, (split9_partition 0 0 3 3 (by norm_num) (by norm_num)).2.2.2.2.1⟩

/-- Claim C9: every split factor at or above 9 produces exactly the nine cells
of the 3x3 grid (identical to factor 9), and every factor in
{2, 3, 5, 6, 7, 8} silently returns the single input region unchanged. -/
theorem split_factor_degradation (b : BBox) (s : Nat) :
    (9 ≤ s → split_bbox b s = split_bbox b 9 ∧ (split_bbox b s).length = 9)
    ∧ ((s = 2 ∨ s = 3 ∨ s = 5 ∨ s = 6 ∨ s = 7 ∨ s = 8) → split_bbox b s = [b]) := by
  constructor
  · intro hs
    have h1 : ¬ s ≤ 1 := by omega
    have h4 : ¬ s = 4 := by omega
    have heq : split_bbox b s = split_bbox b 9 := by
      rw [split_bbox, if_neg h1, if_neg h4, if_pos hs]
      rfl
    refine ⟨heq, ?_⟩
    rw [heq]
    rfl
  · rintro (rfl | rfl | rfl | rfl | rfl | rfl) <;> rfl

/-- Claim C9, witness at factors 16 and 5. -/
theorem split_factor_degradation_witness :
    9 ≤ 16 ∧ split_bbox ((0 : ℚ), 0, 1, 1) 16 = split_bbox ((0 : ℚ), 0, 1, 1) 9
      ∧ (split_bbox ((0 : ℚ), 0, 1, 1) 16).length = 9
      ∧ split_bbox ((0 : ℚ), 0, 1, 1) 5 = [((0 : ℚ), 0, 1, 1)] :=
  ⟨by norm_num,
    ((split_factor_degradation ((0 : ℚ), 0, 1, 1) 16).1 (by norm_num)).1,
    ((split_factor_degradation ((0 : ℚ), 0, 1, 1) 16).1 (by norm_num)).2,
    (split_factor_degradation ((0 : ℚ), 0, 1, 1) 5).2 (Or.inr (Or.inr (Or.inl rfl)))⟩

/-- Claim C10: in the subdivision path, the filter sent for every sub-region
is exactly the layer's non-BBOX conditions plus that sub-region's BBOX
condition, wrapped in a single fes:And when more than one condition is present
and left bare when only one is present (`specSubRegionFilter` is written from
the claim's words; the code path builds it via `build_filter` on the rebuilt
item list). -/
theorem subregion_filter_preserved (fltrs : List FilterItem) (g : String) (box : BBox)
    (bbox_split : Nat) (srvF : FSrv) (fuel : Nat)
    (hlb : lastBBox fltrs = some (g, box)) (hs : 1 < bbox_split) :
    (download_layer_collect fltrs bbox_split srvF fuel).walks
      = (split_bbox box bbox_split).map (fun sub => some (specSubRegionFilter fltrs g sub)) := by
  simp only [download_layer_collect, hlb, if_pos hs]
  rw [foldl_subStep_walks]
  simp only [List.nil_append, build_filter_sub]

/-- Claim C10, witness: the 교통노드-style layer (one EQ condition and one BBOX
condition, bbox_split = 9). -/
theorem subregion_filter_preserved_witness :
    lastBBox fltrsW = some ("ag_geom", ((0 : ℚ), 0, 1, 1)) ∧ 1 < 9
      ∧ (download_layer_collect fltrsW 9 srvFRej 3).walks
          = (split_bbox ((0 : ℚ), 0, 1, 1) 9).map
              (fun sub => some (specSubRegionFilter fltrsW "ag_geom" sub)) :=
  ⟨rfl, by decide,
    subregion_filter_preserved fltrsW "ag_geom" ((0 : ℚ), 0, 1, 1) 9 srvFRej 3 rfl (by decide)⟩
